import Mathlib

/-!
Verification of the `FHERegisTestnet` decentralized application.

Contract side (`packages/hardhat/contracts/FHERegisTestnet.sol`): the
contract keeps `mapping(address => euint256) encryptedEmails`,
`mapping(address => bool) registered`, and `uint256 totalRegistered`.
`registerEmail(encryptedEmail, zkProof)` converts the external ciphertext to
an internal handle via the FHE co-processor, overwrites the caller's stored
handle, sets the caller's flag, grants decryption rights to the caller and
the contract, and bumps the counter on a first-time caller.

The FHE co-processor itself (`FHE.fromExternal`, `FHE.allow`,
`FHE.allowThis`, user decryption) lives in the external `@fhevm` SDK, not in
this repository; it is modelled from the spec as an ideal service which
assigns each verified submitted ciphertext a fresh non-zero handle bound to
its cleartext, with an access-control list consulted at decryption time.

Client side (`useFHERegisTestnetWagmi`): the `registerEmail` orchestration
is modelled as a pure function from an environment (which records the
outcome of each external effect: ABI lookup, encryption, transaction,
refetch) and the hook state to the final hook state plus effect counters.
-/

namespace FHERegisTestnet

/-- Blockchain account addresses (uint160 in the EVM; any value works for
the properties proved here). -/
abbrev Address := Nat

/-- Ciphertext handles (`euint256`); `0` is the Solidity zero sentinel that
an untouched mapping slot returns. -/
abbrev Handle := Nat

/-- One successful `registerEmail` transaction: the caller (`msg.sender`)
and the cleartext integer underneath the submitted external ciphertext and
its zero-knowledge proof. -/
structure Call where
  caller : Address
  value : Nat
deriving DecidableEq

/-- Combined on-chain state of the contract together with the state of the
FHE co-processor.

The first three fields are the contract's storage, straight from
`FHERegisTestnet.sol` lines 14-20.

Modelled from the spec: the last four fields model the external FHE
co-processor (`FHE.fromExternal` / `FHE.allow` / `FHE.allowThis` and the
SDK decryption path, none of which are in this repository): `nextHandle` is
the next fresh handle, `cleartexts` binds each allocated handle to the
cleartext of the ciphertext it was created from, `aclUser` records
`FHE.allow` grants and `aclContract` records `FHE.allowThis` grants. -/
structure State where
  encryptedEmails : Address → Handle
  registered : Address → Bool
  totalRegistered : Nat
  nextHandle : Handle
  cleartexts : Handle → Nat
  aclUser : Handle → Address → Bool
  aclContract : Handle → Bool

/-- Deployment state: every mapping slot is zero-initialized and the
counter is `0`. Handle allocation starts at `1` so that `0` stays the
never-allocated sentinel. -/
def initialState : State where
  encryptedEmails := fun _ => 0
  registered := fun _ => false
  totalRegistered := 0
  nextHandle := 1
  cleartexts := fun _ => 0
  aclUser := fun _ _ => false
  aclContract := fun _ => false

/-- `registerEmail(externalEuint256 encryptedEmail, bytes zkProof)`
(`FHERegisTestnet.sol` lines 27-44): record `firstTime`, convert the
external ciphertext to a fresh internal handle, overwrite the caller's
stored handle, set the caller's flag, grant decryption to the caller and
the contract, and increment `totalRegistered` iff `firstTime`. -/
def registerEmail (s : State) (c : Call) : State :=
  let firstTime := !s.registered c.caller
  let h := s.nextHandle
  { encryptedEmails := fun a => if a = c.caller then h else s.encryptedEmails a
    registered := fun a => if a = c.caller then true else s.registered a
    totalRegistered := if firstTime then s.totalRegistered + 1 else s.totalRegistered
    nextHandle := h + 1
    cleartexts := fun h2 => if h2 = h then c.value else s.cleartexts h2
    aclUser := fun h2 a => if h2 = h ∧ a = c.caller then true else s.aclUser h2 a
    aclContract := fun h2 => if h2 = h then true else s.aclContract h2 }

/-- `getTotalRegistered()` (`FHERegisTestnet.sol` lines 50-52). -/
def getTotalRegistered (s : State) : Nat :=
  s.totalRegistered

/-- `hasRegistered(address user)` (`FHERegisTestnet.sol` lines 59-61). -/
def hasRegistered (s : State) (a : Address) : Bool :=
  s.registered a

/-- `encryptedEmailOf(address user)` (`FHERegisTestnet.sol` lines 68-70). -/
def encryptedEmailOf (s : State) (a : Address) : Handle :=
  s.encryptedEmails a

/-- Modelled from the spec: the SDK decryption path
(`requestDecryption(handle, authorization) → cleartextInteger`), absent
from this repository. A party `a` holding an authorization for handle `h`
receives the cleartext bound to `h`; without a grant the request fails. -/
def requestDecryption (s : State) (h : Handle) (a : Address) : Option Nat :=
  if s.aclUser h a then some (s.cleartexts h) else none

/-- A state reachable from deployment by a sequence of successful
`registerEmail` transactions. -/
def run (calls : List Call) : State :=
  calls.foldl registerEmail initialState

/-- The callers of a transaction sequence, in order. -/
def callers (calls : List Call) : List Address :=
  calls.map Call.caller

/-- The cleartext most recently submitted by `a` in the sequence, if any. -/
def lastSubmitted (calls : List Call) (a : Address) : Option Nat :=
  (calls.reverse.find? fun c => c.caller == a).map Call.value

lemma run_append_single (calls : List Call) (c : Call) :
    run (calls ++ [c]) = registerEmail (run calls) c := by
  simp [run, List.foldl_append]

lemma lastSubmitted_append_single (calls : List Call) (c : Call) (a : Address) :
    lastSubmitted (calls ++ [c]) a =
      if c.caller = a then some c.value else lastSubmitted calls a := by
  by_cases h : c.caller = a
  · simp [lastSubmitted, List.find?_cons, h]
  · simp [lastSubmitted, List.find?_cons, h]

lemma lastSubmitted_eq_none_iff (calls : List Call) (a : Address) :
    lastSubmitted calls a = none ↔ a ∉ callers calls := by
  unfold lastSubmitted callers
  rw [Option.map_eq_none', List.find?_eq_none]
  simp

/-- The single invariant tying a reachable state to the transaction trace
behind it: handles start strictly positive, the counter equals the number
of distinct callers so far, a never-seen address keeps its zero defaults,
and a seen address holds an allocated non-zero handle bound to its latest
cleartext, with a decryption grant for itself. -/
def Inv (calls : List Call) (s : State) : Prop :=
  0 < s.nextHandle ∧
  s.totalRegistered = (callers calls).toFinset.card ∧
  ∀ a : Address,
    (lastSubmitted calls a = none → s.registered a = false ∧ s.encryptedEmails a = 0) ∧
    ∀ v, lastSubmitted calls a = some v →
      s.registered a = true ∧ s.encryptedEmails a ≠ 0 ∧
      s.encryptedEmails a < s.nextHandle ∧
      s.aclUser (s.encryptedEmails a) a = true ∧
      s.cleartexts (s.encryptedEmails a) = v

lemma mem_callers_of_lastSubmitted_some {calls : List Call} {a : Address} {v : Nat}
    (h : lastSubmitted calls a = some v) : a ∈ callers calls := by
  by_contra hn
  rw [← lastSubmitted_eq_none_iff] at hn
  rw [hn] at h
  exact Option.noConfusion h

lemma inv_step {calls : List Call} {s : State} (c : Call) (hInv : Inv calls s) :
    Inv (calls ++ [c]) (registerEmail s c) := by
  obtain ⟨hpos, hcard, hpt⟩ := hInv
  refine ⟨by simp [registerEmail], ?_, ?_⟩
  · have hcallers : (callers (calls ++ [c])).toFinset =
        insert c.caller (callers calls).toFinset := by
      simp [callers, List.toFinset_append, Finset.union_comm, Finset.insert_eq]
    rw [hcallers]
    by_cases hreg : s.registered c.caller = true
    · have hmem : c.caller ∈ callers calls := by
        by_contra hn
        rw [← lastSubmitted_eq_none_iff] at hn
        have := (hpt c.caller).1 hn
        rw [this.1] at hreg
        exact Bool.noConfusion hreg
      have : insert c.caller (callers calls).toFinset = (callers calls).toFinset :=
        Finset.insert_eq_self.2 (List.mem_toFinset.2 hmem)
      rw [this, ← hcard]
      simp [registerEmail, hreg]
    · have hmem : c.caller ∉ callers calls := by
        intro hn
        cases hls : lastSubmitted calls c.caller with
        | none => exact (lastSubmitted_eq_none_iff calls c.caller).1 hls hn
        | some v => exact hreg ((hpt c.caller).2 v hls).1
      rw [Finset.card_insert_of_not_mem (fun hmem2 => hmem (List.mem_toFinset.1 hmem2)),
        ← hcard]
      simp [registerEmail, hreg]
  · intro a
    by_cases hac : a = c.caller
    · subst hac
      rw [lastSubmitted_append_single]
      rw [if_pos rfl]
      refine ⟨fun h => Option.noConfusion h, fun v hv => ?_⟩
      have hveq : v = c.value := (Option.some.injEq _ _ ▸ hv).symm
      subst hveq
      refine ⟨by simp [registerEmail], ?_, ?_, ?_, ?_⟩
      · simp [registerEmail]
        exact Nat.pos_iff_ne_zero.mp hpos
      · simp [registerEmail]
      · simp [registerEmail]
      · simp [registerEmail]
    · have hfr : lastSubmitted (calls ++ [c]) a = lastSubmitted calls a := by
        rw [lastSubmitted_append_single, if_neg (fun h => hac h.symm)]
      rw [hfr]
      have hemails : (registerEmail s c).encryptedEmails a = s.encryptedEmails a := by
        simp [registerEmail, hac]
      have hregeq : (registerEmail s c).registered a = s.registered a := by
        simp [registerEmail, hac]
      refine ⟨fun h => ?_, fun v hv => ?_⟩
      · obtain ⟨h1, h2⟩ := (hpt a).1 h
        exact ⟨hregeq.trans h1, hemails.trans h2⟩
      · obtain ⟨h1, h2, h3, h4, h5⟩ := (hpt a).2 v hv
        refine ⟨hregeq.trans h1, hemails ▸ h2, ?_, ?_, ?_⟩
        · rw [hemails]
          simp only [registerEmail]
          exact Nat.lt_succ_of_lt h3
        · rw [hemails]
          simp only [registerEmail]
          rw [if_neg (fun hand => hac hand.2)]
          exact h4
        · rw [hemails]
          simp only [registerEmail]
          rw [if_neg (fun heq => Nat.lt_irrefl _ (heq ▸ h3))]
          exact h5

lemma inv_run (calls : List Call) : Inv calls (run calls) := by
  induction calls using List.reverseRecOn with
  | nil =>
      refine ⟨Nat.one_pos, by simp [run, initialState, callers], fun a => ?_⟩
      exact ⟨fun _ => ⟨rfl, rfl⟩, fun v hv => by simp [lastSubmitted] at hv⟩
  | append_singleton l c ih =>
      rw [run_append_single]
      exact inv_step c ih

/-- Environment of one invocation of the client `registerEmail` callback of
the `useFHERegisTestnetWagmi` hook: the values the closure captured at its
creation render, plus the outcome of each external effect awaited during
the invocation. An `Except.error e` records that the corresponding awaited
call threw an exception with message `e`. -/
structure ClientEnv where
  hasContract : Bool
  hasInstance : Bool
  hasSigner : Bool
  encMethod : Option String
  encMethodError : Option String
  encOutcome : Except String Bool
  txOutcome : Except String Unit
  refreshOutcome : Except String Unit

/-- The hook state the orchestration touches: the status `message` and the
`isProcessing` flag. -/
structure ClientState where
  message : String
  isProcessing : Bool
deriving DecidableEq

/-- `canRegister` (`useFHERegisTestnetWagmi`, lines 118-121):
`Boolean(hasContract && instance && hasSigner && !isProcessing)`. -/
def canRegister (env : ClientEnv) (st : ClientState) : Bool :=
  env.hasContract && env.hasInstance && env.hasSigner && !st.isProcessing

/-- The entry guard of the client `registerEmail` (line 137):
`if (isProcessing || !canRegister || emailAsNumber <= BigInt(0)) return;`. -/
def registerGuard (env : ClientEnv) (st : ClientState) (emailAsNumber : Int) : Bool :=
  st.isProcessing || !canRegister env st || decide (emailAsNumber ≤ 0)

/-- Observable outcome of one invocation of the client `registerEmail`:
the hook state when the returned promise settles, how many times the
encryption service and the transaction submission were invoked, and
whether the promise rejected. -/
structure RegisterOutcome where
  finalState : ClientState
  encryptCalls : Nat
  txCalls : Nat
  rejected : Bool
deriving DecidableEq

/-- The client `registerEmail` orchestration (`useFHERegisTestnetWagmi`,
lines 135-162), step by step: the entry guard returns silently; otherwise
`setIsProcessing(true)` and a `try` block that resolves the encryption
method from the ABI (`getEncryptionMethodFor`), encrypts, fetches the write
contract (`getContract("write")`, defined iff the contract info and the
signer are present), submits the transaction, awaits the receipt and
refetches the handle; any exception is caught and rendered as
`registerEmail() failed: ...`, and the `finally` clause always runs
`setIsProcessing(false)`. -/
def registerEmailClient (env : ClientEnv) (st : ClientState)
    (emailAsNumber : Int) : RegisterOutcome :=
  if registerGuard env st emailAsNumber then
    { finalState := st, encryptCalls := 0, txCalls := 0, rejected := false }
  else
    match env.encMethod with
    | none =>
        { finalState :=
            { message := env.encMethodError.getD "Encryption method not found"
              isProcessing := false }
          encryptCalls := 0, txCalls := 0, rejected := false }
    | some _ =>
        match env.encOutcome with
        | .error e =>
            { finalState :=
                { message := "registerEmail() failed: " ++ e, isProcessing := false }
              encryptCalls := 1, txCalls := 0, rejected := false }
        | .ok false =>
            { finalState := { message := "Encryption failed", isProcessing := false }
              encryptCalls := 1, txCalls := 0, rejected := false }
        | .ok true =>
            if !(env.hasContract && env.hasSigner) then
              { finalState := { message := "Signer not available", isProcessing := false }
                encryptCalls := 1, txCalls := 0, rejected := false }
            else
              match env.txOutcome with
              | .error e =>
                  { finalState :=
                      { message := "registerEmail() failed: " ++ e, isProcessing := false }
                    encryptCalls := 1, txCalls := 1, rejected := false }
              | .ok _ =>
                  match env.refreshOutcome with
                  | .error e =>
                      { finalState :=
                          { message := "registerEmail() failed: " ++ e
                            isProcessing := false }
                        encryptCalls := 1, txCalls := 1, rejected := false }
                  | .ok _ =>
                      { finalState :=
                          { message := "Email registration updated!"
                            isProcessing := false }
                        encryptCalls := 1, txCalls := 1, rejected := false }

example : hasRegistered (run [⟨0, 123456789⟩]) 0 = true := by decide
example : getTotalRegistered (run [⟨0, 123456789⟩, ⟨0, 555⟩]) = 1 := by decide
example : lastSubmitted [⟨0, 123456789⟩, ⟨0, 555⟩] 0 = some 555 := by decide
example :
    requestDecryption (run [⟨0, 123456789⟩, ⟨0, 555⟩])
      (encryptedEmailOf (run [⟨0, 123456789⟩, ⟨0, 555⟩]) 0) 0 = some 555 := by
  decide

/-- C1: for every address that has already registered, a subsequent
successful `registerEmail` call leaves the global counter unchanged and
replaces the stored handle with the handle of the newly submitted
ciphertext (which is bound to the newly submitted cleartext): the call
succeeds and overwrites; it does not append. -/
theorem repeat_registration_overwrites (s : State) (c : Call)
    (h : hasRegistered s c.caller = true) :
    getTotalRegistered (registerEmail s c) = getTotalRegistered s ∧
    encryptedEmailOf (registerEmail s c) c.caller = s.nextHandle ∧
    (registerEmail s c).cleartexts (encryptedEmailOf (registerEmail s c) c.caller) =
      c.value := by
  have h' : s.registered c.caller = true := h
  refine ⟨?_, ?_, ?_⟩
  · simp [getTotalRegistered, registerEmail, h']
  · simp [encryptedEmailOf, registerEmail]
  · simp [encryptedEmailOf, registerEmail]

/-- C1 witness: address `0` registers `123456789`, then `555`; the counter
stays put and the stored handle is the fresh one, bound to `555`. -/
theorem repeat_registration_overwrites_witness :
    hasRegistered (run [⟨0, 123456789⟩]) 0 = true ∧
    (getTotalRegistered (registerEmail (run [⟨0, 123456789⟩]) ⟨0, 555⟩) =
        getTotalRegistered (run [⟨0, 123456789⟩]) ∧
      encryptedEmailOf (registerEmail (run [⟨0, 123456789⟩]) ⟨0, 555⟩) 0 =
        (run [⟨0, 123456789⟩]).nextHandle ∧
      (registerEmail (run [⟨0, 123456789⟩]) ⟨0, 555⟩).cleartexts
        (encryptedEmailOf (registerEmail (run [⟨0, 123456789⟩]) ⟨0, 555⟩) 0) = 555) :=
  ⟨by decide, repeat_registration_overwrites (run [⟨0, 123456789⟩]) ⟨0, 555⟩ (by decide)⟩

/-- C2: an address that has never registered gets `hasRegistered = true`
and bumps the global counter by exactly one on its first successful
`registerEmail` call. -/
theorem first_registration (s : State) (c : Call)
    (h : hasRegistered s c.caller = false) :
    hasRegistered (registerEmail s c) c.caller = true ∧
    getTotalRegistered (registerEmail s c) = getTotalRegistered s + 1 := by
  have h' : s.registered c.caller = false := h
  constructor
  · simp [hasRegistered, registerEmail]
  · simp [getTotalRegistered, registerEmail, h']

/-- C2 witness: address `0`'s first registration from the deployment
state. -/
theorem first_registration_witness :
    hasRegistered initialState 0 = false ∧
    (hasRegistered (registerEmail initialState ⟨0, 123456789⟩) 0 = true ∧
      getTotalRegistered (registerEmail initialState ⟨0, 123456789⟩) =
        getTotalRegistered initialState + 1) :=
  ⟨by decide, first_registration initialState ⟨0, 123456789⟩ (by decide)⟩

/-- C3: in every state reachable from deployment by `registerEmail` calls,
`totalRegistered` equals the cardinality of the set of addresses whose
`registered` flag is set. -/
theorem counter_counts_distinct_registered (calls : List Call) :
    ∃ t : Finset Address,
      (∀ a : Address, hasRegistered (run calls) a = true ↔ a ∈ t) ∧
      getTotalRegistered (run calls) = t.card := by
  obtain ⟨hpos, hcard, hpt⟩ := inv_run calls
  refine ⟨(callers calls).toFinset, fun a => ?_, hcard⟩
  rw [List.mem_toFinset]
  constructor
  · intro hreg
    by_contra hn
    have hnone := (lastSubmitted_eq_none_iff calls a).2 hn
    have hfalse := ((hpt a).1 hnone).1
    have hreg' : (run calls).registered a = true := hreg
    rw [hfalse] at hreg'
    exact Bool.noConfusion hreg'
  · intro hmem
    cases hls : lastSubmitted calls a with
    | none => exact absurd hmem ((lastSubmitted_eq_none_iff calls a).1 hls)
    | some v => exact ((hpt a).2 v hls).1

/-- C4: an address on which `registerEmail` was never called reads back
`hasRegistered = false` and the zero sentinel handle. -/
theorem unregistered_defaults (calls : List Call) (a : Address)
    (h : a ∉ callers calls) :
    hasRegistered (run calls) a = false ∧ encryptedEmailOf (run calls) a = 0 := by
  obtain ⟨hpos, hcard, hpt⟩ := inv_run calls
  have hnone := (lastSubmitted_eq_none_iff calls a).2 h
  obtain ⟨h1, h2⟩ := (hpt a).1 hnone
  exact ⟨h1, h2⟩

/-- C4 witness: address `0` after a trace in which only address `1`
registered. -/
theorem unregistered_defaults_witness :
    (0 : Address) ∉ callers [⟨1, 7⟩] ∧
    (hasRegistered (run [⟨1, 7⟩]) 0 = false ∧ encryptedEmailOf (run [⟨1, 7⟩]) 0 = 0) :=
  ⟨by decide, unregistered_defaults [⟨1, 7⟩] 0 (by decide)⟩

/-- C5: one `registerEmail` step never clears a set `registered` flag and
never decreases the global counter. -/
theorem state_monotone (s : State) (c : Call) (a : Address)
    (h : s.registered a = true) :
    (registerEmail s c).registered a = true ∧
    s.totalRegistered ≤ (registerEmail s c).totalRegistered := by
  constructor
  · by_cases hac : a = c.caller
    · subst hac
      simp [registerEmail]
    · simp [registerEmail, hac, h]
  · simp only [registerEmail]
    split
    · exact Nat.le_succ _
    · exact Nat.le_refl _

/-- C5 witness: address `0`'s flag survives a registration by address `1`,
and the counter does not drop. -/
theorem state_monotone_witness :
    (run [⟨0, 1⟩]).registered 0 = true ∧
    ((registerEmail (run [⟨0, 1⟩]) ⟨1, 2⟩).registered 0 = true ∧
      (run [⟨0, 1⟩]).totalRegistered ≤
        (registerEmail (run [⟨0, 1⟩]) ⟨1, 2⟩).totalRegistered) :=
  ⟨by decide, state_monotone (run [⟨0, 1⟩]) ⟨1, 2⟩ 0 (by decide)⟩

/-- C6: for a registered address, decrypting the handle returned by
`encryptedEmailOf` under that address's authorization yields exactly the
cleartext it most recently submitted through `registerEmail`. -/
theorem decrypt_yields_latest (calls : List Call) (a : Address) (v : Nat)
    (h : lastSubmitted calls a = some v) :
    requestDecryption (run calls) (encryptedEmailOf (run calls) a) a = some v := by
  obtain ⟨hpos, hcard, hpt⟩ := inv_run calls
  obtain ⟨h1, h2, h3, h4, h5⟩ := (hpt a).2 v h
  simp [requestDecryption, encryptedEmailOf, h4, h5]

/-- C6 witness, the spec's concrete scenario: address `0` registers
`123456789` and then `555`; decryption returns `555`. -/
theorem decrypt_yields_latest_witness :
    lastSubmitted [⟨0, 123456789⟩, ⟨0, 555⟩] 0 = some 555 ∧
    requestDecryption (run [⟨0, 123456789⟩, ⟨0, 555⟩])
      (encryptedEmailOf (run [⟨0, 123456789⟩, ⟨0, 555⟩]) 0) 0 = some 555 :=
  ⟨by decide, decrypt_yields_latest [⟨0, 123456789⟩, ⟨0, 555⟩] 0 555 (by decide)⟩

/-- C7: a `registerEmail` call by one address leaves every other address's
stored handle, registered flag and decryption result unchanged. -/
theorem register_frame (calls : List Call) (c : Call) (b : Address)
    (h : b ≠ c.caller) :
    encryptedEmailOf (registerEmail (run calls) c) b = encryptedEmailOf (run calls) b ∧
    hasRegistered (registerEmail (run calls) c) b = hasRegistered (run calls) b ∧
    requestDecryption (registerEmail (run calls) c)
        (encryptedEmailOf (registerEmail (run calls) c) b) b =
      requestDecryption (run calls) (encryptedEmailOf (run calls) b) b := by
  obtain ⟨hpos, hcard, hpt⟩ := inv_run calls
  have hemails : (registerEmail (run calls) c).encryptedEmails b =
      (run calls).encryptedEmails b := by
    simp [registerEmail, h]
  have hlt : (run calls).encryptedEmails b < (run calls).nextHandle := by
    cases hls : lastSubmitted calls b with
    | none =>
        have h2 := ((hpt b).1 hls).2
        rw [h2]
        exact hpos
    | some v => exact ((hpt b).2 v hls).2.2.1
  have hne : (run calls).encryptedEmails b ≠ (run calls).nextHandle :=
    fun heq => Nat.lt_irrefl _ (heq ▸ hlt)
  have hacl : (registerEmail (run calls) c).aclUser ((run calls).encryptedEmails b) b =
      (run calls).aclUser ((run calls).encryptedEmails b) b := by
    simp only [registerEmail]
    rw [if_neg (fun hand => h hand.2)]
  have hclear : (registerEmail (run calls) c).cleartexts ((run calls).encryptedEmails b) =
      (run calls).cleartexts ((run calls).encryptedEmails b) := by
    simp only [registerEmail]
    rw [if_neg hne]
  refine ⟨hemails, ?_, ?_⟩
  · simp [hasRegistered, registerEmail, h]
  · simp only [requestDecryption, encryptedEmailOf]
    rw [hemails, hacl, hclear]

/-- C7 witness: address `1`'s view is untouched by a registration from
address `0`. -/
theorem register_frame_witness :
    (1 : Address) ≠ (Call.mk 0 9).caller ∧
    (encryptedEmailOf (registerEmail (run [⟨1, 42⟩]) ⟨0, 9⟩) 1 =
        encryptedEmailOf (run [⟨1, 42⟩]) 1 ∧
      hasRegistered (registerEmail (run [⟨1, 42⟩]) ⟨0, 9⟩) 1 =
        hasRegistered (run [⟨1, 42⟩]) 1 ∧
      requestDecryption (registerEmail (run [⟨1, 42⟩]) ⟨0, 9⟩)
          (encryptedEmailOf (registerEmail (run [⟨1, 42⟩]) ⟨0, 9⟩) 1) 1 =
        requestDecryption (run [⟨1, 42⟩]) (encryptedEmailOf (run [⟨1, 42⟩]) 1) 1) :=
  ⟨by decide, register_frame [⟨1, 42⟩] ⟨0, 9⟩ 1 (by decide)⟩

/-- A sample client environment with the contract, the FHE instance and
the signer all available and every external effect succeeding. -/
def sampleEnv : ClientEnv where
  hasContract := true
  hasInstance := true
  hasSigner := true
  encMethod := some "add256"
  encMethodError := none
  encOutcome := Except.ok true
  txOutcome := Except.ok ()
  refreshOutcome := Except.ok ()

/-- C8: once past the entry guard, every failure of the client
`registerEmail` orchestration (missing encryption method or ABI,
encryption throw or null result, transaction failure) is caught and
surfaced only as a human-readable status message; the promise never
rejects, encryption and transaction submission each run at most once (no
automatic retry), and `isProcessing` is reset to `false` on every exit
path, success or failure. -/
theorem orchestration_error_handling (env : ClientEnv) (st : ClientState) (n : Int)
    (h : registerGuard env st n = false) :
    (registerEmailClient env st n).rejected = false ∧
    (registerEmailClient env st n).finalState.isProcessing = false ∧
    (registerEmailClient env st n).encryptCalls ≤ 1 ∧
    (registerEmailClient env st n).txCalls ≤ 1 ∧
    (env.encMethod = none →
      (registerEmailClient env st n).finalState.message =
        env.encMethodError.getD "Encryption method not found") ∧
    (∀ e, env.encMethod ≠ none → env.encOutcome = Except.error e →
      (registerEmailClient env st n).finalState.message =
        "registerEmail() failed: " ++ e) ∧
    (env.encMethod ≠ none → env.encOutcome = Except.ok false →
      (registerEmailClient env st n).finalState.message = "Encryption failed") ∧
    (∀ e, env.encMethod ≠ none → env.encOutcome = Except.ok true →
      env.txOutcome = Except.error e →
      (registerEmailClient env st n).finalState.message =
        "registerEmail() failed: " ++ e) := by
  have hs := h
  simp [registerGuard, canRegister] at hs
  have hcontract : env.hasContract = true := hs.1.2.1.1.1
  have hsigner : env.hasSigner = true := hs.1.2.1.2
  rcases hm : env.encMethod with _ | m
  · simp [registerEmailClient, h, hm]
  · rcases ho : env.encOutcome with e | b
    · simp [registerEmailClient, h, hm, ho]
    · cases b
      · simp [registerEmailClient, h, hm, ho]
      · rcases ht : env.txOutcome with e | u
        · simp [registerEmailClient, h, hm, ho, ht, hcontract, hsigner]
        · rcases hr : env.refreshOutcome with e | u
          · simp [registerEmailClient, h, hm, ho, ht, hr, hcontract, hsigner]
          · simp [registerEmailClient, h, hm, ho, ht, hr, hcontract, hsigner]

/-- C8 witness: a successful run past the guard neither rejects nor leaves
`isProcessing` set. -/
theorem orchestration_error_handling_witness :
    registerGuard sampleEnv { message := "", isProcessing := false } 5 = false ∧
    (registerEmailClient sampleEnv { message := "", isProcessing := false } 5).rejected =
      false ∧
    (registerEmailClient sampleEnv
        { message := "", isProcessing := false } 5).finalState.isProcessing = false :=
  ⟨by decide,
    (orchestration_error_handling sampleEnv { message := "", isProcessing := false } 5
      (by decide)).1,
    (orchestration_error_handling sampleEnv { message := "", isProcessing := false } 5
      (by decide)).2.1⟩

/-- C9: while `isProcessing` is `true`, a further call to the client
`registerEmail` returns immediately: no encryption, no transaction, state
untouched, no rejection. -/
theorem processing_flag_gates (env : ClientEnv) (st : ClientState) (n : Int)
    (h : st.isProcessing = true) :
    registerEmailClient env st n =
      { finalState := st, encryptCalls := 0, txCalls := 0, rejected := false } := by
  simp [registerEmailClient, registerGuard, h]

/-- C9 witness: a call while a registration is in flight is a no-op. -/
theorem processing_flag_gates_witness :
    ({ message := "busy", isProcessing := true } : ClientState).isProcessing = true ∧
    registerEmailClient sampleEnv { message := "busy", isProcessing := true } 5 =
      { finalState := { message := "busy", isProcessing := true }
        encryptCalls := 0, txCalls := 0, rejected := false } :=
  ⟨by decide,
    processing_flag_gates sampleEnv { message := "busy", isProcessing := true } 5
      (by decide)⟩

/-- C10: a zero or negative cleartext makes the client `registerEmail`
return immediately: no encryption, no transaction, no message change, no
`isProcessing` toggle. -/
theorem nonpositive_input_ignored (env : ClientEnv) (st : ClientState) (n : Int)
    (h : n ≤ 0) :
    registerEmailClient env st n =
      { finalState := st, encryptCalls := 0, txCalls := 0, rejected := false } := by
  simp [registerEmailClient, registerGuard, h]

/-- C10 witness: registering `0` is a no-op. -/
theorem nonpositive_input_ignored_witness :
    (0 : Int) ≤ 0 ∧
    registerEmailClient sampleEnv { message := "", isProcessing := false } 0 =
      { finalState := { message := "", isProcessing := false }
        encryptCalls := 0, txCalls := 0, rejected := false } :=
  ⟨by decide,
    nonpositive_input_ignored sampleEnv { message := "", isProcessing := false } 0
      (by decide)⟩

end FHERegisTestnet
